import Mathlib

/-!
Verification of the `conformal` library (file `conformal/__init__.py`).

Shallow embedding conventions:
* numpy float arrays are modelled as `List ℚ` / `List (List ℚ)`; all numeric
  operations (percentile interpolation, division) are modelled exactly over ℚ.
* a Python exception is a constructor of `PyError`; code that can raise
  returns `Except PyError _` or `Option _`.
* the dynamically typed `threshold_mode` argument is a `PyVal` (a Python value
  that is either an `int` or some non-`int` number).
* a numpy 2-D array is rectangular; `shape[1]` is modelled as the length of
  the first row (`numLabels`).  Dictionaries keyed by `range(L)` (the score
  groups and the threshold map) are modelled as lists indexed by the label.
-/

/-- The Python exception classes raised by the source code. -/
inductive PyError where
  | typeError
  | valueError
  | indexError
  | keyError
  | zeroDivisionError
deriving DecidableEq

instance {ε α : Type} [DecidableEq ε] [DecidableEq α] :
    DecidableEq (Except ε α) := fun x y =>
  match x, y with
  | .error a, .error b => decidable_of_iff (a = b) (by simp)
  | .error _, .ok _ => isFalse (by simp)
  | .ok _, .error _ => isFalse (by simp)
  | .ok a, .ok b => decidable_of_iff (a = b) (by simp)

/-- A dynamically typed Python value passed as `threshold_mode`:
`type(x).__name__ == 'int'` distinguishes the two constructors. -/
inductive PyVal where
  | int (n : Int)
  | float (q : ℚ)
deriving DecidableEq

/-- The non-conformity measure capability: `measure(output_vector, label) -> score`. -/
abbrev Measure := List ℚ → Nat → ℚ

/-- The identity-like measure of the specification's concrete scenario:
it returns the output vector's entry at the candidate label. -/
def idMeasure : Measure := fun out i => out.getD i 0

/-- Model of `np.where(row == 1)[0][0]`: the index of the first entry equal
to `1`, or `none` when there is no such entry (numpy raises `IndexError`).
For a one-hot row this is the position of the single `1`, i.e. the argmax. -/
def trueLabel : List ℚ → Option Nat
  | [] => none
  | x :: xs => if x = 1 then some 0 else (trueLabel xs).map (fun n => n + 1)

/-- Model of `model_output.shape[1]`: the common row length of the
rectangular 2-D array, read off the first row. -/
def numLabels (mo : List (List ℚ)) : Nat := (mo.headD []).length

/-- The calibration grouping loop of `__non_conformity_thresholds` (and of
`threshold_measure`): for each row `i` of `model_output`, look up
`actual[i]` (raising `IndexError` past the end), find its true label `t`
(raising `IndexError` when the row has no `1`), check `t` is a key of the
score dictionary (raising `KeyError` when `t ≥ L`), and record the pair
`(t, measure(output_i, t))` in row order. -/
def calibPairs (m : Measure) (L : Nat) : List (List ℚ) → List (List ℚ) →
    Except PyError (List (Nat × ℚ))
  | [], _ => .ok []
  | _ :: _, [] => .error .indexError
  | out :: mos, actRow :: acts =>
    match trueLabel actRow with
    | none => .error .indexError
    | some t =>
      if t < L then
        match calibPairs m L mos acts with
        | .ok rest => .ok ((t, m out t) :: rest)
        | .error e => .error e
      else .error .keyError

/-- The score list accumulated for one label by the grouping loop
(`measure[label]` in the source), in row order. -/
def scoresFor (pairs : List (Nat × ℚ)) (label : Nat) : List ℚ :=
  pairs.filterMap (fun p => if p.1 = label then some p.2 else none)

/-- Linear interpolation into a sorted list at fractional rank `pos`, as
`np.percentile` does: with `lo = ⌊pos⌋`, the value is
`s[lo] + (pos - lo) * (s[lo+1] - s[lo])`, the upper index clamped to the
last element. -/
def interpAt (s : List ℚ) (pos : ℚ) : ℚ :=
  s.getD (⌊pos⌋.toNat) 0 +
    (pos - (⌊pos⌋.toNat : ℚ)) *
      (s.getD (min (⌊pos⌋.toNat + 1) (s.length - 1)) 0 - s.getD (⌊pos⌋.toNat) 0)

/-- The fractional rank `q / 100 * (n - 1)` used by `np.percentile`. -/
def percentilePos (q : ℚ) (n : Nat) : ℚ := q * ((n : ℚ) - 1) / 100

/-- Model of `np.percentile(l, q)` (linear-interpolation definition, exact
over ℚ): sort ascending and interpolate at rank `q/100 * (n-1)`.  On an
empty input numpy produces NaN (an undefined statistic), modelled `none`. -/
def percentile (l : List ℚ) (q : ℚ) : Option ℚ :=
  if l = [] then none
  else some (interpAt (l.insertionSort (· ≤ ·)) (percentilePos q l.length))

/-- The per-label threshold map of `threshold_mode = 0`: for each label key
`0 .. L-1` in order, the `(100 - epsilon)`-th percentile of that label's own
score list. -/
def perLabelThresholds (pairs : List (Nat × ℚ)) (L : Nat) (eps : ℚ) :
    List (Option ℚ) :=
  (List.range L).map (fun l => percentile (scoresFor pairs l) (100 - eps))

/-- Model of `np.concatenate([measure[label] for label in measure.keys()])`:
the per-label score lists pooled in label-key order. -/
def pooledScores (pairs : List (Nat × ℚ)) (L : Nat) : List ℚ :=
  ((List.range L).map (scoresFor pairs)).flatten

/-- Model of `ConformalPrediction.__non_conformity_thresholds`.  The final
`else` branch (Python would leave `thresholds = None`) is unreachable because
the constructor validates `threshold_mode ∈ {0, 1}` first. -/
def nonConformityThresholds (m : Measure) (eps : ℚ) (mode : Int)
    (mo act : List (List ℚ)) : Except PyError (List (Option ℚ)) :=
  match calibPairs m (numLabels mo) mo act with
  | .error e => .error e
  | .ok pairs =>
    if mode = 0 then .ok (perLabelThresholds pairs (numLabels mo) eps)
    else if mode = 1 then
      .ok ((List.range (numLabels mo)).map
        (fun _ => percentile (pooledScores pairs (numLabels mo)) (100 - eps)))
    else .ok []

/-- The state of a constructed `ConformalPrediction` object: exactly the
attributes the constructor assigns.  The threshold map is a list indexed by
the label key `0 .. labels-1`; a `none` entry models the NaN threshold that
numpy's percentile of an empty score list produces. -/
structure ConformalPrediction where
  measure : Measure
  epsilon : ℚ
  selected_threshold_mode : Int
  threshold_modes : List Int
  labels : Nat
  thresholds : List (Option ℚ)

/-- Model of the `ConformalPrediction` constructor, with its validation
checks in source order: `epsilon` range (ValueError), `threshold_mode` type
(TypeError), `threshold_mode` range (ValueError); only then are thresholds
computed and the object's attributes assigned.  The `model_output`-is-ndarray
check (TypeError) is subsumed by the Lean type of `mo`. -/
def mk? (mo act : List (List ℚ)) (eps : ℚ) (m : Measure)
    (threshold_mode : PyVal) : Except PyError ConformalPrediction :=
  if eps < 0 ∨ 100 < eps then .error .valueError
  else
    match threshold_mode with
    | .int n =>
      if n = 0 ∨ n = 1 then
        match nonConformityThresholds m eps n mo act with
        | .ok th => .ok ⟨m, eps, n, [0, 1], numLabels mo, th⟩
        | .error e => .error e
      else .error .valueError
    | .float _ => .error .typeError

/-- The prediction set for one output row: the label indices `i` in
ascending order whose score is within the threshold,
`[i for i in range(len(output)) if measure(output, i) <= thresholds[i]]`.
A NaN (`none`) threshold compares false, excluding the label. -/
def predictRowSet (m : Measure) (ths : List (Option ℚ)) (output : List ℚ) :
    List Nat :=
  (List.range output.length).filter (fun i =>
    match ths.getD i none with
    | some thr => decide (m output i ≤ thr)
    | none => false)

/-- Model of `ConformalPrediction.predict`: per row, the prediction set;
`none` models the `KeyError` raised when a row is longer than the threshold
map (the comprehension looks up `thresholds[i]` for every `i`). -/
def ConformalPrediction.predict (cp : ConformalPrediction)
    (mo : List (List ℚ)) : Option (List (List Nat)) :=
  mo.mapM (fun output =>
    if output.length ≤ cp.thresholds.length then
      some (predictRowSet cp.measure cp.thresholds output)
    else none)

/-- Model of `ConformalPrediction.confidence`: per row, the raw scores for
every candidate label (no thresholding). -/
def ConformalPrediction.confidence (cp : ConformalPrediction)
    (mo : List (List ℚ)) : List (List ℚ) :=
  mo.map (fun output => (List.range output.length).map (cp.measure output))

/-- Model of `ConformalPrediction.threshold_measure`: the calibration
grouping alone, returning the per-label score lists keyed `0 .. L-1`. -/
def ConformalPrediction.threshold_measure (cp : ConformalPrediction)
    (mo act : List (List ℚ)) : Except PyError (List (List ℚ)) :=
  match calibPairs cp.measure (numLabels mo) mo act with
  | .error e => .error e
  | .ok pairs => .ok ((List.range (numLabels mo)).map (scoresFor pairs))

/-- The loop of `evaluate`, carrying the running index `i` of
`enumerate(predicted_labels)`: looks up `actual_labels[i]` (IndexError past
the end), its true label (IndexError when no entry is `1`), and counts the
rows whose true label is in the prediction set. -/
def evalCount : List (List Nat) → List (List ℚ) → Nat → Option Nat
  | [], _, _ => some 0
  | ls :: rest, act, i =>
    match act[i]? with
    | none => none
    | some row =>
      match trueLabel row with
      | none => none
      | some t =>
        match evalCount rest act (i + 1) with
        | none => none
        | some c => some (if ls.contains t then c + 1 else c)

/-- Model of the static `ConformalPrediction.evaluate`: the counting loop,
then `count / len(actual_labels)` — raising `ZeroDivisionError` when
`actual_labels` is empty. -/
def evaluate (pred : List (List Nat)) (act : List (List ℚ)) :
    Except PyError ℚ :=
  match evalCount pred act 0 with
  | none => .error .indexError
  | some c =>
    if act.length = 0 then .error .zeroDivisionError
    else .ok ((c : ℚ) / (act.length : ℚ))

/-- Whether sample `i` is counted correct by `evaluate`: the first index of
`1` in the actual row is a member of the predicted label set. -/
def sampleCorrect (ls : List Nat) (row : List ℚ) : Bool :=
  match trueLabel row with
  | some t => ls.contains t
  | none => false

/-- Model of the bin index `np.histogram` assigns to a data value `x` for
`B` equal-width bins over `[lo, hi]` (exact arithmetic): bins are
half-open, the last bin closed. -/
def npHistBin (lo hi : ℚ) (B : Nat) (x : ℚ) : Nat :=
  if x = hi then B - 1 else (⌊(x - lo) * (B : ℚ) / (hi - lo)⌋).toNat

/-- The lower end of the histogram range: `min(data)`, as numpy computes it. -/
def dataMin (data : List ℚ) : ℚ := data.foldr min (data.headD 0)

/-- The upper end of the histogram range: `max(data)`. -/
def dataMax (data : List ℚ) : ℚ := data.foldr max (data.headD 0)

/-- Model of `np.histogram(data, bins=B)[0]` with a numeric `bins` argument:
`B` equal-width bins spanning `[min data, max data]` (the degenerate
equal-endpoint range widened by 1/2 on each side, as numpy does). -/
def npHistogram (data : List ℚ) (B : Nat) : List Nat :=
  (List.range B).map (fun i => data.countP (fun x => decide (npHistBin
    (if dataMin data = dataMax data then dataMin data - 1 / 2 else dataMin data)
    (if dataMin data = dataMax data then dataMax data + 1 / 2 else dataMax data)
    B x = i)))

/-- The data list the source hands to `np.histogram`: the prediction set
sizes `labels_count`, augmented with one artificial size for each value in
`0 .. L` so that every bin is populated. -/
def histData (L : Nat) (predictions : List (List Nat)) : List ℚ :=
  predictions.map (fun p => (p.length : ℚ)) ++
    (List.range (L + 1)).map (fun (i : Nat) => (i : ℚ))

/-- Model of `ConformalPrediction.label_histogram` (the returned value; the
optional rendering-sink write is outside the algorithmic contract): histogram
the augmented set sizes over `L + 1` bins, then subtract the artificial
count of 1 from every bin. -/
def ConformalPrediction.label_histogram (cp : ConformalPrediction)
    (predictions : List (List Nat)) : List Int :=
  (npHistogram (histData cp.labels predictions) (cp.labels + 1)).map
    (fun (y : Nat) => (y : Int) - 1)

/-- Method-call view of `predict`: the result together with the object state
after the call.  The body of `predict` assigns only local names and never an
attribute of `self`, so the post-state is the pre-state. -/
def ConformalPrediction.predictS (cp : ConformalPrediction)
    (mo : List (List ℚ)) : Option (List (List Nat)) × ConformalPrediction :=
  (cp.predict mo, cp)

/-- Method-call view of `confidence` (no attribute of `self` is assigned). -/
def ConformalPrediction.confidenceS (cp : ConformalPrediction)
    (mo : List (List ℚ)) : List (List ℚ) × ConformalPrediction :=
  (cp.confidence mo, cp)

/-- Method-call view of `threshold_measure` (no attribute of `self` is assigned). -/
def ConformalPrediction.threshold_measureS (cp : ConformalPrediction)
    (mo act : List (List ℚ)) :
    Except PyError (List (List ℚ)) × ConformalPrediction :=
  (cp.threshold_measure mo act, cp)

/-- Method-call view of `label_histogram` (no attribute of `self` is assigned). -/
def ConformalPrediction.label_histogramS (cp : ConformalPrediction)
    (predictions : List (List Nat)) : List Int × ConformalPrediction :=
  (cp.label_histogram predictions, cp)

/-- The calibration model-output batch of the specification's concrete
scenario: six rows whose true-label scores under `idMeasure` are
`1, 2` (label 0), `3, 4` (label 1), `5, 6` (label 2). -/
def calibMo : List (List ℚ) :=
  [[1, 9, 9], [2, 9, 9], [9, 3, 9], [9, 4, 9], [9, 9, 5], [9, 9, 6]]

/-- The one-hot ground-truth rows of the concrete scenario:
true labels `[0, 0, 1, 1, 2, 2]`. -/
def calibAct : List (List ℚ) :=
  [[1, 0, 0], [1, 0, 0], [0, 1, 0], [0, 1, 0], [0, 0, 1], [0, 0, 1]]


/-! ### Shared helper lemmas -/

lemma getD_eq_get {α : Type} (l : List α) (d : α) (i : Nat) (h : i < l.length) :
    l.getD i d = l.get ⟨i, h⟩ := by
  rw [List.getD_eq_getElem?_getD, List.getElem?_eq_getElem h]
  rfl

lemma getD_map_range {α : Type} (f : Nat → α) (d : α) {L l : Nat} (h : l < L) :
    ((List.range L).map f).getD l d = f l := by
  rw [List.getD_eq_getElem?_getD, List.getElem?_map, List.getElem?_range h]
  rfl

lemma getD_mem {l : List ℚ} {i : Nat} (h : i < l.length) : l.getD i 0 ∈ l := by
  rw [getD_eq_get l 0 i h]
  exact List.get_mem l i h

lemma sorted_le_getD_last {s : List ℚ} (hs : List.Sorted (· ≤ ·) s)
    (hne : s ≠ []) {x : ℚ} (hx : x ∈ s) : x ≤ s.getD (s.length - 1) 0 := by
  have hlen : 0 < s.length := List.length_pos.mpr hne
  have hlt : s.length - 1 < s.length := by omega
  rw [getD_eq_get s 0 _ hlt]
  obtain ⟨i, hi⟩ := List.mem_iff_get.mp hx
  rw [← hi]
  rcases Nat.lt_or_ge i.val (s.length - 1) with h2 | h2
  · exact List.pairwise_iff_get.mp hs i ⟨s.length - 1, hlt⟩ h2
  · have he : i = (⟨s.length - 1, hlt⟩ : Fin s.length) := by
      apply Fin.ext
      have := i.isLt
      simp only []
      omega
    rw [he]

lemma sorted_getD_head_le {s : List ℚ} (hs : List.Sorted (· ≤ ·) s)
    (hne : s ≠ []) {x : ℚ} (hx : x ∈ s) : s.getD 0 0 ≤ x := by
  have hlen : 0 < s.length := List.length_pos.mpr hne
  rw [getD_eq_get s 0 0 hlen]
  obtain ⟨i, hi⟩ := List.mem_iff_get.mp hx
  rw [← hi]
  rcases Nat.eq_zero_or_pos i.val with h2 | h2
  · have he : (⟨0, hlen⟩ : Fin s.length) = i := by
      apply Fin.ext
      simp [h2]
    rw [he]
  · exact List.pairwise_iff_get.mp hs ⟨0, hlen⟩ i h2

lemma interpAt_natCast (s : List ℚ) (k : Nat) : interpAt s (k : ℚ) = s.getD k 0 := by
  unfold interpAt
  rw [Int.floor_natCast, Int.toNat_natCast]
  simp

lemma percentilePos_hundred (n : Nat) (h : 1 ≤ n) :
    percentilePos 100 n = ((n - 1 : Nat) : ℚ) := by
  unfold percentilePos
  rw [mul_div_cancel_left₀ _ (by norm_num : (100 : ℚ) ≠ 0)]
  rw [Nat.cast_sub h, Nat.cast_one]

lemma percentilePos_zero (n : Nat) : percentilePos 0 n = ((0 : Nat) : ℚ) := by
  unfold percentilePos
  simp

lemma percentile_hundred (l : List ℚ) (h : l ≠ []) :
    ∃ t, percentile l 100 = some t ∧ t ∈ l ∧ ∀ x ∈ l, x ≤ t := by
  have hperm := List.perm_insertionSort (· ≤ ·) l
  have hlen : (l.insertionSort (· ≤ ·)).length = l.length := hperm.length_eq
  have hl1 : 1 ≤ l.length := List.length_pos.mpr h
  have hsne : l.insertionSort (· ≤ ·) ≠ [] := by
    intro hnil
    rw [hnil] at hlen
    simp at hlen
    omega
  have hsorted : List.Sorted (· ≤ ·) (l.insertionSort (· ≤ ·)) :=
    List.sorted_insertionSort (· ≤ ·) l
  refine ⟨(l.insertionSort (· ≤ ·)).getD (l.length - 1) 0, ?_, ?_, ?_⟩
  · unfold percentile
    rw [if_neg h, percentilePos_hundred l.length hl1, interpAt_natCast]
  · apply hperm.subset
    apply getD_mem
    omega
  · intro x hx
    have := sorted_le_getD_last hsorted hsne (hperm.mem_iff.mpr hx)
    rwa [hlen] at this

lemma percentile_zero (l : List ℚ) (h : l ≠ []) :
    ∃ t, percentile l 0 = some t ∧ t ∈ l ∧ ∀ x ∈ l, t ≤ x := by
  have hperm := List.perm_insertionSort (· ≤ ·) l
  have hlen : (l.insertionSort (· ≤ ·)).length = l.length := hperm.length_eq
  have hl1 : 1 ≤ l.length := List.length_pos.mpr h
  have hsne : l.insertionSort (· ≤ ·) ≠ [] := by
    intro hnil
    rw [hnil] at hlen
    simp at hlen
    omega
  have hsorted : List.Sorted (· ≤ ·) (l.insertionSort (· ≤ ·)) :=
    List.sorted_insertionSort (· ≤ ·) l
  refine ⟨(l.insertionSort (· ≤ ·)).getD 0 0, ?_, ?_, ?_⟩
  · unfold percentile
    rw [if_neg h, percentilePos_zero l.length, interpAt_natCast]
  · apply hperm.subset
    apply getD_mem
    omega
  · intro x hx
    exact sorted_getD_head_le hsorted hsne (hperm.mem_iff.mpr hx)

/-! ### Claim C1 -/

/-- C1: for every constructed predictor and every input row (of the batch
handed to `predict`), the prediction set is `predictRowSet`, it lists label
indices in strictly ascending order, and a label `l` with a (non-NaN)
threshold `thr` is a member iff `measure(row, l) ≤ thr` — boundary
inclusive, since the comparison is `≤`. -/
theorem predict_membership (cp : ConformalPrediction) (row : List ℚ)
    (hlen : row.length ≤ cp.thresholds.length) :
    cp.predict [row] = some [predictRowSet cp.measure cp.thresholds row] ∧
    List.Pairwise (· < ·) (predictRowSet cp.measure cp.thresholds row) ∧
    ∀ l thr, cp.thresholds.getD l none = some thr →
      (l ∈ predictRowSet cp.measure cp.thresholds row ↔
        l < row.length ∧ cp.measure row l ≤ thr) := by
  refine ⟨?_, ?_, ?_⟩
  · simp [ConformalPrediction.predict, List.mapM, List.mapM.loop, hlen]
  · exact List.Pairwise.filter _ (List.pairwise_lt_range _)
  · intro l thr hthr
    unfold predictRowSet
    rw [List.mem_filter, List.mem_range]
    rw [hthr]
    simp

/-- Witness for C1, the specification's concrete scenario: calibrating with
`epsilon = 50` in per-label mode on true-label scores `[1,2], [3,4], [5,6]`
gives thresholds `1.5, 3.5, 5.5`, and the row scoring `[1.0, 3.5, 6.0]`
predicts exactly the set `[0, 1]` (`3.5 ≤ 3.5` boundary-inclusive,
`6.0 > 5.5` excluded). -/
theorem predict_membership_witness :
    nonConformityThresholds idMeasure 50 0 calibMo calibAct =
      .ok [some (3 / 2), some (7 / 2), some (11 / 2)] ∧
    predictRowSet idMeasure [some (3 / 2), some (7 / 2), some (11 / 2)]
      [1, 7 / 2, 6] = [0, 1] ∧
    ((ConformalPrediction.mk idMeasure 50 0 [0, 1] 3
        [some (3 / 2), some (7 / 2), some (11 / 2)]).predict [[1, 7 / 2, 6]] =
      some [predictRowSet idMeasure [some (3 / 2), some (7 / 2), some (11 / 2)]
        [1, 7 / 2, 6]] ∧
     List.Pairwise (· < ·)
      (predictRowSet idMeasure [some (3 / 2), some (7 / 2), some (11 / 2)]
        [1, 7 / 2, 6]) ∧
     ∀ l thr,
      ([some (3 / 2), some (7 / 2), some (11 / 2)] : List (Option ℚ)).getD l none =
          some thr →
        (l ∈ predictRowSet idMeasure [some (3 / 2), some (7 / 2), some (11 / 2)]
            [1, 7 / 2, 6] ↔
          l < ([1, 7 / 2, 6] : List ℚ).length ∧
            idMeasure [1, 7 / 2, 6] l ≤ thr)) :=
  ⟨by with_unfolding_all decide, by with_unfolding_all decide,
   predict_membership
     (ConformalPrediction.mk idMeasure 50 0 [0, 1] 3
       [some (3 / 2), some (7 / 2), some (11 / 2)])
     [1, 7 / 2, 6] (by with_unfolding_all decide)⟩

/-! ### Claim C3 -/

/-- C3: in per-label mode, over a calibration batch whose grouping succeeds
and in which every label has at least one calibration score: with
`epsilon = 0` each label's threshold is the maximum observed score of that
label (a member of the score list that bounds it above), and with
`epsilon = 100` it is the minimum observed score. -/
theorem per_label_extreme_thresholds (m : Measure) (mo act : List (List ℚ))
    (pairs : List (Nat × ℚ))
    (hp : calibPairs m (numLabels mo) mo act = .ok pairs)
    (hne : ∀ l, l < numLabels mo → scoresFor pairs l ≠ []) :
    nonConformityThresholds m 0 0 mo act =
      .ok (perLabelThresholds pairs (numLabels mo) 0) ∧
    nonConformityThresholds m 100 0 mo act =
      .ok (perLabelThresholds pairs (numLabels mo) 100) ∧
    (∀ l, l < numLabels mo → ∃ t,
      (perLabelThresholds pairs (numLabels mo) 0).getD l none = some t ∧
      t ∈ scoresFor pairs l ∧ ∀ x ∈ scoresFor pairs l, x ≤ t) ∧
    (∀ l, l < numLabels mo → ∃ t,
      (perLabelThresholds pairs (numLabels mo) 100).getD l none = some t ∧
      t ∈ scoresFor pairs l ∧ ∀ x ∈ scoresFor pairs l, t ≤ x) := by
  refine ⟨?_, ?_, ?_, ?_⟩
  · unfold nonConformityThresholds
    rw [hp]
    norm_num
  · unfold nonConformityThresholds
    rw [hp]
    norm_num
  · intro l hl
    unfold perLabelThresholds
    rw [getD_map_range _ _ hl]
    norm_num
    exact percentile_hundred (scoresFor pairs l) (hne l hl)
  · intro l hl
    unfold perLabelThresholds
    rw [getD_map_range _ _ hl]
    norm_num
    exact percentile_zero (scoresFor pairs l) (hne l hl)

/-- Witness for C3 on the concrete calibration scenario: with the score
groups `[1,2], [3,4], [5,6]`, `epsilon = 0` yields the per-label maxima
`2, 4, 6` and `epsilon = 100` the per-label minima `1, 3, 5`. -/
theorem per_label_extreme_thresholds_witness :
    (nonConformityThresholds idMeasure 0 0 calibMo calibAct =
      .ok (perLabelThresholds [(0, 1), (0, 2), (1, 3), (1, 4), (2, 5), (2, 6)]
        (numLabels calibMo) 0) ∧
     nonConformityThresholds idMeasure 100 0 calibMo calibAct =
      .ok (perLabelThresholds [(0, 1), (0, 2), (1, 3), (1, 4), (2, 5), (2, 6)]
        (numLabels calibMo) 100) ∧
     (∀ l, l < numLabels calibMo → ∃ t,
       (perLabelThresholds [(0, 1), (0, 2), (1, 3), (1, 4), (2, 5), (2, 6)]
         (numLabels calibMo) 0).getD l none = some t ∧
       t ∈ scoresFor [(0, 1), (0, 2), (1, 3), (1, 4), (2, 5), (2, 6)] l ∧
       ∀ x ∈ scoresFor [(0, 1), (0, 2), (1, 3), (1, 4), (2, 5), (2, 6)] l, x ≤ t) ∧
     (∀ l, l < numLabels calibMo → ∃ t,
       (perLabelThresholds [(0, 1), (0, 2), (1, 3), (1, 4), (2, 5), (2, 6)]
         (numLabels calibMo) 100).getD l none = some t ∧
       t ∈ scoresFor [(0, 1), (0, 2), (1, 3), (1, 4), (2, 5), (2, 6)] l ∧
       ∀ x ∈ scoresFor [(0, 1), (0, 2), (1, 3), (1, 4), (2, 5), (2, 6)] l, t ≤ x)) ∧
    perLabelThresholds [(0, 1), (0, 2), (1, 3), (1, 4), (2, 5), (2, 6)] 3 0 =
      [some 2, some 4, some 6] ∧
    perLabelThresholds [(0, 1), (0, 2), (1, 3), (1, 4), (2, 5), (2, 6)] 3 100 =
      [some 1, some 3, some 5] :=
  ⟨per_label_extreme_thresholds idMeasure calibMo calibAct
      [(0, 1), (0, 2), (1, 3), (1, 4), (2, 5), (2, 6)]
      (by with_unfolding_all decide) (by with_unfolding_all decide),
   by with_unfolding_all decide, by with_unfolding_all decide⟩

/-! ### Claim C2 -/

/-- C2: for every calibration batch and epsilon in `[0, 100]`, a predictor
successfully constructed with `threshold_mode = 1` has every entry of its
threshold map equal to the single `(100 - epsilon)`-th percentile of the
pooled per-true-label calibration scores, so all labels share one value. -/
theorem global_mode_uniform (mo act : List (List ℚ)) (eps : ℚ) (m : Measure)
    (cp : ConformalPrediction) (h0 : 0 ≤ eps) (h1 : eps ≤ 100)
    (hmk : mk? mo act eps m (PyVal.int 1) = .ok cp) :
    (∃ pairs, calibPairs m (numLabels mo) mo act = .ok pairs ∧
      ∀ th ∈ cp.thresholds,
        th = percentile (pooledScores pairs (numLabels mo)) (100 - eps)) ∧
    ∀ th th2, th ∈ cp.thresholds → th2 ∈ cp.thresholds → th = th2 := by
  have hv : ¬ (eps < 0 ∨ 100 < eps) := by
    push_neg
    exact ⟨h0, h1⟩
  unfold mk? at hmk
  rw [if_neg hv] at hmk
  norm_num at hmk
  cases hnc : nonConformityThresholds m eps 1 mo act with
  | error e =>
    rw [hnc] at hmk
    simp at hmk
  | ok th =>
    rw [hnc] at hmk
    simp only [Except.ok.injEq] at hmk
    unfold nonConformityThresholds at hnc
    cases hcp : calibPairs m (numLabels mo) mo act with
    | error e =>
      rw [hcp] at hnc
      simp at hnc
    | ok pairs =>
      rw [hcp] at hnc
      norm_num at hnc
      have hth : cp.thresholds =
          List.replicate (numLabels mo)
            (percentile (pooledScores pairs (numLabels mo)) (100 - eps)) := by
        rw [← hmk]
        exact hnc.symm
      constructor
      · refine ⟨pairs, rfl, ?_⟩
        intro t ht
        rw [hth] at ht
        exact List.eq_of_mem_replicate ht
      · intro t t2 ht ht2
        rw [hth] at ht ht2
        rw [List.eq_of_mem_replicate ht, List.eq_of_mem_replicate ht2]

/-- Witness for C2 on the concrete calibration scenario with
`epsilon = 50`: the pooled scores are `[1..6]`, whose median `3.5` fills
every slot of the threshold map. -/
theorem global_mode_uniform_witness :
    ((∃ pairs, calibPairs idMeasure (numLabels calibMo) calibMo calibAct = .ok pairs ∧
       ∀ th ∈ (ConformalPrediction.mk idMeasure 50 1 [0, 1] 3
           [some (7 / 2), some (7 / 2), some (7 / 2)]).thresholds,
         th = percentile (pooledScores pairs (numLabels calibMo)) (100 - 50)) ∧
     ∀ th th2,
       th ∈ (ConformalPrediction.mk idMeasure 50 1 [0, 1] 3
           [some (7 / 2), some (7 / 2), some (7 / 2)]).thresholds →
       th2 ∈ (ConformalPrediction.mk idMeasure 50 1 [0, 1] 3
           [some (7 / 2), some (7 / 2), some (7 / 2)]).thresholds →
       th = th2) ∧
    percentile (pooledScores [(0, 1), (0, 2), (1, 3), (1, 4), (2, 5), (2, 6)] 3) 50 =
      some (7 / 2) :=
  ⟨global_mode_uniform calibMo calibAct 50 idMeasure
      (ConformalPrediction.mk idMeasure 50 1 [0, 1] 3
        [some (7 / 2), some (7 / 2), some (7 / 2)])
      (by norm_num) (by norm_num) (by with_unfolding_all rfl),
   by with_unfolding_all decide⟩

/-! ### Claims C4 and C10 -/

lemma evalCount_eq (pred : List (List Nat)) (act : List (List ℚ))
    (hone : ∀ row ∈ act, (trueLabel row).isSome) :
    ∀ i, i + pred.length ≤ act.length →
      evalCount pred act i =
        some ((pred.zip (act.drop i)).countP (fun pr => sampleCorrect pr.1 pr.2)) := by
  induction pred with
  | nil =>
    intro i hlen
    simp [evalCount]
  | cons ls rest ih =>
    intro i hlen
    have hi : i < act.length := by
      simp only [List.length_cons] at hlen
      omega
    obtain ⟨t, ht⟩ := Option.isSome_iff_exists.mp (hone act[i] (List.getElem_mem hi))
    have hdrop : act.drop i = act[i] :: act.drop (i + 1) := List.drop_eq_getElem_cons hi
    simp only [evalCount, List.getElem?_eq_getElem hi, ht,
      ih (i + 1) (by simp only [List.length_cons] at hlen; omega),
      hdrop, List.zip_cons_cons, List.countP_cons]
    have hsc : sampleCorrect ls act[i] = ls.contains t := by
      unfold sampleCorrect
      rw [ht]
    cases hct : ls.contains t
    all_goals simp at hct
    all_goals simp [hsc, hct]

lemma evaluate_eq_of_count (pred : List (List Nat)) (act : List (List ℚ)) (c : Nat)
    (h : evalCount pred act 0 = some c) (h0 : act.length ≠ 0) :
    evaluate pred act = .ok ((c : ℚ) / (act.length : ℚ)) := by
  unfold evaluate
  rw [h]
  show (if act.length = 0 then Except.error PyError.zeroDivisionError
    else Except.ok ((c : ℚ) / (act.length : ℚ))) =
      Except.ok ((c : ℚ) / (act.length : ℚ))
  rw [if_neg h0]

/-- C4: on a non-empty batch of equal length whose actual rows each contain
a `1` (in particular, one-hot rows), `evaluate` returns the exact fraction
of samples whose true label index is a member of the prediction set; it
returns 1 when every sample's set contains its true label and 0 when none
does. -/
theorem evaluate_fraction (pred : List (List Nat)) (act : List (List ℚ))
    (hlen : pred.length = act.length) (hne : act ≠ [])
    (hone : ∀ row ∈ act, (trueLabel row).isSome) :
    evaluate pred act =
      .ok ((((pred.zip act).countP (fun pr => sampleCorrect pr.1 pr.2) : ℚ)) /
        (act.length : ℚ)) ∧
    ((∀ pr ∈ pred.zip act, sampleCorrect pr.1 pr.2) → evaluate pred act = .ok 1) ∧
    ((∀ pr ∈ pred.zip act, ¬ sampleCorrect pr.1 pr.2) → evaluate pred act = .ok 0) := by
  have h0 : act.length ≠ 0 := fun hz => hne (List.length_eq_zero.mp hz)
  have hmain : evaluate pred act =
      .ok ((((pred.zip act).countP (fun pr => sampleCorrect pr.1 pr.2) : ℚ)) /
        (act.length : ℚ)) :=
    evaluate_eq_of_count pred act _
      (by rw [evalCount_eq pred act hone 0 (by omega), List.drop_zero]) h0
  refine ⟨hmain, ?_, ?_⟩
  · intro hall
    rw [hmain]
    have hc : (pred.zip act).countP (fun pr => sampleCorrect pr.1 pr.2) = act.length := by
      rw [List.countP_eq_length.mpr hall, List.length_zip, hlen, min_self]
    rw [hc, div_self (Nat.cast_ne_zero.mpr h0)]
  · intro hnone
    rw [hmain]
    have hc : (pred.zip act).countP (fun pr => sampleCorrect pr.1 pr.2) = 0 :=
      List.countP_eq_zero.mpr hnone
    rw [hc]
    norm_num

/-- Witness for C4: with two one-hot samples, matching prediction sets give
accuracy 1 and disjoint ones give accuracy 0. -/
theorem evaluate_fraction_witness :
    evaluate [[0], [1]] [[(1 : ℚ), 0], [0, 1]] = .ok 1 ∧
    evaluate [[1], [0]] [[(1 : ℚ), 0], [0, 1]] = .ok 0 :=
  ⟨(evaluate_fraction [[0], [1]] [[(1 : ℚ), 0], [0, 1]]
      (by with_unfolding_all decide) (by with_unfolding_all decide)
      (by with_unfolding_all decide)).2.1 (by with_unfolding_all decide),
   (evaluate_fraction [[1], [0]] [[(1 : ℚ), 0], [0, 1]]
      (by with_unfolding_all decide) (by with_unfolding_all decide)
      (by with_unfolding_all decide)).2.2 (by with_unfolding_all decide)⟩

lemma zip_take_length {α β : Type} :
    ∀ (xs : List α) (ys : List β), xs.zip (ys.take xs.length) = xs.zip ys
  | [], _ => by simp
  | _ :: _, [] => by simp
  | x :: xs, y :: ys => by
    simp only [List.length_cons, List.take_succ_cons, List.zip_cons_cons]
    rw [zip_take_length xs ys]

/-- C10: when `predicted_labels` is strictly shorter than `actual_labels`
(and the actual rows contain a `1`), `evaluate` raises no error: it counts
correctness only over the first `len(predicted_labels)` samples — the zip
with `take` — yet divides by the full `len(actual_labels)`, so the surplus
actual rows are silently scored as incorrect. -/
theorem evaluate_short_silent (pred : List (List Nat)) (act : List (List ℚ))
    (hshort : pred.length < act.length)
    (hone : ∀ row ∈ act, (trueLabel row).isSome) :
    evaluate pred act =
      .ok ((((pred.zip (act.take pred.length)).countP
          (fun pr => sampleCorrect pr.1 pr.2) : ℚ)) / (act.length : ℚ)) := by
  rw [zip_take_length]
  exact evaluate_eq_of_count pred act _
    (by rw [evalCount_eq pred act hone 0 (by omega), List.drop_zero]) (by omega)

/-- Witness for C10: one prediction set against two actual rows divides by
2, not 1, yielding accuracy `1/2` with no length-mismatch error. -/
theorem evaluate_short_silent_witness :
    evaluate [[0]] [[(1 : ℚ), 0], [0, 1]] =
      .ok (((([[0]].zip (([[(1 : ℚ), 0], [0, 1]] : List (List ℚ)).take 1)).countP
          (fun pr => sampleCorrect pr.1 pr.2) : ℚ)) / 2) ∧
    evaluate [[0]] [[(1 : ℚ), 0], [0, 1]] = .ok (1 / 2) :=
  ⟨evaluate_short_silent [[0]] [[(1 : ℚ), 0], [0, 1]]
      (by with_unfolding_all decide) (by with_unfolding_all decide),
   by with_unfolding_all decide⟩

/-! ### Claim C5 -/

lemma foldr_min_le {l : List ℚ} {x : ℚ} (d : ℚ) (hx : x ∈ l) :
    l.foldr min d ≤ x := by
  induction l with
  | nil => cases hx
  | cons a l ih =>
    rcases List.mem_cons.mp hx with rfl | hx2
    · exact min_le_left _ _
    · exact le_trans (min_le_right _ _) (ih hx2)

lemma le_foldr_min {l : List ℚ} {a d : ℚ} (hd : a ≤ d)
    (hl : ∀ x ∈ l, a ≤ x) : a ≤ l.foldr min d := by
  induction l with
  | nil => exact hd
  | cons b l ih =>
    exact le_min (hl b (by simp)) (ih (fun x hx => hl x (by simp [hx])))

lemma le_foldr_max {l : List ℚ} {x : ℚ} (d : ℚ) (hx : x ∈ l) :
    x ≤ l.foldr max d := by
  induction l with
  | nil => cases hx
  | cons a l ih =>
    rcases List.mem_cons.mp hx with rfl | hx2
    · exact le_max_left _ _
    · exact le_trans (ih hx2) (le_max_right _ _)

lemma foldr_max_le {l : List ℚ} {a d : ℚ} (hd : d ≤ a)
    (hl : ∀ x ∈ l, x ≤ a) : l.foldr max d ≤ a := by
  induction l with
  | nil => exact hd
  | cons b l ih =>
    exact max_le (hl b (by simp)) (ih (fun x hx => hl x (by simp [hx])))

lemma le_foldr_max_init {l : List ℚ} (d : ℚ) : d ≤ l.foldr max d := by
  induction l with
  | nil => exact le_rfl
  | cons a l ih => exact le_trans ih (le_max_right _ _)

lemma foldr_min_init_le {l : List ℚ} (d : ℚ) : l.foldr min d ≤ d := by
  induction l with
  | nil => exact le_rfl
  | cons a l ih => exact le_trans (min_le_right _ _) ih

lemma headD_mem {l : List ℚ} (h : l ≠ []) : l.headD 0 ∈ l := by
  cases l with
  | nil => exact absurd rfl h
  | cons a l => simp

lemma countP_congr_mem {α : Type} (l : List α) (p q : α → Bool)
    (h : ∀ x ∈ l, p x = q x) : l.countP p = l.countP q := by
  induction l with
  | nil => rfl
  | cons a l ih =>
    rw [List.countP_cons, List.countP_cons, h a (by simp),
      ih (fun x hx => h x (by simp [hx]))]

lemma countP_range_eq (i : Nat) :
    ∀ n, (List.range n).countP (fun k => decide (k = i)) =
      if i < n then 1 else 0
  | 0 => by simp
  | n + 1 => by
    rw [List.range_succ, List.countP_append, countP_range_eq i n]
    simp only [List.countP_cons, List.countP_nil, decide_eq_true_eq]
    rcases Nat.lt_trichotomy i n with h1 | h1 | h1
    · rw [if_pos h1, if_pos (by omega : i < n + 1), if_neg (by omega : ¬ n = i)]
    · rw [if_neg (by omega : ¬ i < n), if_pos (by omega : i < n + 1),
        if_pos (by omega : n = i)]
    · rw [if_neg (by omega : ¬ i < n), if_neg (by omega : ¬ i < n + 1),
        if_neg (by omega : ¬ n = i)]

lemma npHistBin_natCast {L : Nat} (hL : 0 < L) {k : Nat} (hk : k ≤ L) :
    npHistBin 0 (L : ℚ) (L + 1) ((k : ℚ)) = k := by
  unfold npHistBin
  rcases eq_or_lt_of_le hk with rfl | hklt
  · rw [if_pos rfl]
    omega
  · have hkL : ((k : ℚ)) ≠ ((L : ℚ)) := by
      exact_mod_cast Nat.ne_of_lt hklt
    rw [if_neg hkL]
    have hLpos : (0 : ℚ) < (L : ℚ) := by exact_mod_cast hL
    have hfloor : ⌊((k : ℚ) - 0) * ((L + 1 : ℕ) : ℚ) / ((L : ℚ) - 0)⌋ = (k : ℤ) := by
      rw [sub_zero, sub_zero, Int.floor_eq_iff]
      constructor
      · rw [le_div_iff₀ hLpos]
        push_cast
        nlinarith [Nat.cast_nonneg (α := ℚ) k]
      · rw [div_lt_iff₀ hLpos]
        push_cast
        have : ((k : ℚ)) < ((L : ℚ)) := by exact_mod_cast hklt
        nlinarith
    rw [hfloor]
    exact Int.toNat_natCast k

/-- C5: for prediction sets over `L` labels (every set size at most `L`),
`label_histogram` returns exactly `L + 1` integer bin counts, entry `i`
being the number of prediction sets of cardinality exactly `i`: the
augment-then-subtract trick around `np.histogram` is exact tallying. -/
theorem label_histogram_exact (cp : ConformalPrediction)
    (preds : List (List Nat))
    (hsz : ∀ p ∈ preds, p.length ≤ cp.labels) :
    cp.label_histogram preds =
      (List.range (cp.labels + 1)).map
        (fun i => (preds.countP (fun p => decide (p.length = i)) : Int)) := by
  rcases Nat.eq_zero_or_pos cp.labels with hL0 | hL
  · have hall : ∀ p ∈ preds, p.length = 0 :=
      fun p hp => Nat.le_zero.mp (hL0 ▸ hsz p hp)
    have hzero : ∀ x ∈ histData cp.labels preds, x = 0 := by
      intro x hx
      unfold histData at hx
      rcases List.mem_append.mp hx with hx1 | hx1
      · obtain ⟨p, hp, rfl⟩ := List.mem_map.mp hx1
        rw [hall p hp]
        norm_num
      · obtain ⟨a, ha, rfl⟩ := List.mem_map.mp hx1
        have := List.mem_range.mp ha
        have ha0 : a = 0 := by omega
        rw [ha0]
        norm_num
    have hdne : histData cp.labels preds ≠ [] := by
      unfold histData
      simp
    have hmin : dataMin (histData cp.labels preds) = 0 := by
      unfold dataMin
      rw [hzero _ (headD_mem hdne)]
      exact le_antisymm (foldr_min_init_le 0)
        (le_foldr_min le_rfl (fun x hx => (hzero x hx).ge))
    have hmax : dataMax (histData cp.labels preds) = 0 := by
      unfold dataMax
      rw [hzero _ (headD_mem hdne)]
      exact le_antisymm
        (foldr_max_le le_rfl (fun x hx => (hzero x hx).le))
        (le_foldr_max_init 0)
    have hbin : npHistBin (0 - 1 / 2) (0 + 1 / 2) (cp.labels + 1) 0 = 0 := by
      rw [hL0]
      with_unfolding_all decide
    unfold ConformalPrediction.label_histogram npHistogram
    rw [hmin, hmax, if_pos rfl, if_pos rfl, List.map_map]
    apply List.map_congr_left
    intro i hi
    have hi0 : i = 0 := by
      have := List.mem_range.mp hi
      omega
    subst hi0
    simp only [Function.comp_apply]
    have hcount : (histData cp.labels preds).countP
        (fun x => decide (npHistBin (0 - 1 / 2) (0 + 1 / 2) (cp.labels + 1) x = 0)) =
        (histData cp.labels preds).length := by
      rw [List.countP_eq_length]
      intro x hx
      rw [hzero x hx, hbin]
      exact decide_eq_true rfl
    have hlen : (histData cp.labels preds).length = preds.length + 1 := by
      unfold histData
      rw [List.length_append, List.length_map, List.length_map,
        List.length_range, hL0]
    have hrhs : preds.countP (fun p => decide (p.length = 0)) = preds.length := by
      rw [List.countP_eq_length]
      intro p hp
      rw [hall p hp]
      exact decide_eq_true rfl
    rw [hcount, hlen, hrhs]
    push_cast
    ring
  · have hdne : histData cp.labels preds ≠ [] := by
      unfold histData
      simp
    have h0mem : (0 : ℚ) ∈ histData cp.labels preds := by
      unfold histData
      refine List.mem_append.mpr (Or.inr (List.mem_map.mpr ⟨0, ?_, by norm_num⟩))
      exact List.mem_range.mpr (by omega)
    have hLmem : ((cp.labels : ℚ)) ∈ histData cp.labels preds := by
      unfold histData
      refine List.mem_append.mpr (Or.inr (List.mem_map.mpr ⟨cp.labels, ?_, rfl⟩))
      exact List.mem_range.mpr (by omega)
    have hlow : ∀ x ∈ histData cp.labels preds, 0 ≤ x := by
      intro x hx
      rcases List.mem_append.mp hx with hx1 | hx1
      · obtain ⟨p, _, rfl⟩ := List.mem_map.mp hx1
        positivity
      · obtain ⟨a, _, rfl⟩ := List.mem_map.mp hx1
        positivity
    have hhigh : ∀ x ∈ histData cp.labels preds, x ≤ (cp.labels : ℚ) := by
      intro x hx
      rcases List.mem_append.mp hx with hx1 | hx1
      · obtain ⟨p, hp, rfl⟩ := List.mem_map.mp hx1
        exact_mod_cast hsz p hp
      · obtain ⟨a, ha, rfl⟩ := List.mem_map.mp hx1
        have := List.mem_range.mp ha
        exact_mod_cast (by omega : a ≤ cp.labels)
    have hmin : dataMin (histData cp.labels preds) = 0 :=
      le_antisymm (foldr_min_le _ h0mem)
        (le_foldr_min (hlow _ (headD_mem hdne)) hlow)
    have hmax : dataMax (histData cp.labels preds) = (cp.labels : ℚ) :=
      le_antisymm (foldr_max_le (hhigh _ (headD_mem hdne)) hhigh)
        (le_foldr_max _ hLmem)
    have hne2 : (0 : ℚ) ≠ ((cp.labels : ℚ)) := by
      exact_mod_cast Nat.ne_of_lt hL
    unfold ConformalPrediction.label_histogram npHistogram
    rw [hmin, hmax, if_neg hne2, if_neg hne2]
    rw [List.map_map]
    apply List.map_congr_left
    intro i hi
    have hiL : i ≤ cp.labels := by
      have := List.mem_range.mp hi
      omega
    simp only [Function.comp_apply]
    rw [histData, List.countP_append, List.countP_map, List.countP_map]
    have hpart1 : preds.countP
        ((fun x => decide (npHistBin 0 ((cp.labels : ℚ)) (cp.labels + 1) x = i)) ∘
          (fun p => ((p.length : ℚ)))) =
        preds.countP (fun p => decide (p.length = i)) := by
      apply countP_congr_mem
      intro p hp
      simp only [Function.comp_apply]
      rw [npHistBin_natCast hL (hsz p hp)]
    have hpart2 : (List.range (cp.labels + 1)).countP
        ((fun x => decide (npHistBin 0 ((cp.labels : ℚ)) (cp.labels + 1) x = i)) ∘
          (fun (k : Nat) => (k : ℚ))) = 1 := by
      rw [countP_congr_mem _ _ (fun k => decide (k = i)) ?_]
      · rw [countP_range_eq, if_pos (by omega)]
      · intro k hk
        have := List.mem_range.mp hk
        simp only [Function.comp_apply]
        rw [npHistBin_natCast hL (by omega : k ≤ cp.labels)]
    rw [hpart1, hpart2]
    push_cast
    ring

/-- Witness for C5, the specification's concrete case: predictions
`[[0], [0,1], [], [0,1,2]]` with `L = 3` give bin counts `[1, 1, 1, 1]`. -/
theorem label_histogram_exact_witness :
    (ConformalPrediction.mk idMeasure 5 0 [0, 1] 3 []).label_histogram
      [[0], [0, 1], [], [0, 1, 2]] =
      (List.range (3 + 1)).map
        (fun i => (([[0], [0, 1], [], [0, 1, 2]] : List (List Nat)).countP
          (fun p => decide (p.length = i)) : Int)) ∧
    (ConformalPrediction.mk idMeasure 5 0 [0, 1] 3 []).label_histogram
      [[0], [0, 1], [], [0, 1, 2]] = [1, 1, 1, 1] :=
  ⟨label_histogram_exact (ConformalPrediction.mk idMeasure 5 0 [0, 1] 3 [])
      [[0], [0, 1], [], [0, 1, 2]] (by with_unfolding_all decide),
   by with_unfolding_all decide⟩

/-! ### Claim C6 -/

/-- C6 (divergence of the source from the mandated policy): `evaluate` on
zero samples raises a `ZeroDivisionError` — an unrelated arithmetic fault —
and a percentile over an empty score list is the silently undefined NaN
statistic (`none`), so a per-label construction in which label 1 never
occurs in calibration succeeds with a NaN threshold instead of failing
loudly with an explicit `UndefinedStatistic` error. -/
theorem undefined_statistic_silent :
    evaluate [] [] = .error PyError.zeroDivisionError ∧
    percentile [] 95 = none ∧
    nonConformityThresholds idMeasure 5 0 [[1, 0], [1, 0]] [[1, 0], [1, 0]] =
      .ok [some 1, none] :=
  ⟨by with_unfolding_all decide, by with_unfolding_all decide,
   by with_unfolding_all decide⟩

/-! ### Claim C7 -/

/-- C7 (amended): constructor validation is fail-fast, but uses two error
classes, not one: epsilon outside `[0, 100]` raises `ValueError`; a
non-integer `threshold_mode` raises `TypeError`, while an integer
`threshold_mode` outside `{0, 1}` raises `ValueError`.  Each failure is
returned before any threshold computation, and no predictor value exists
on the error path. -/
theorem constructor_validation (mo act : List (List ℚ)) (eps : ℚ)
    (m : Measure) :
    (∀ pv, (eps < 0 ∨ 100 < eps) →
      mk? mo act eps m pv = .error PyError.valueError) ∧
    (∀ q, 0 ≤ eps → eps ≤ 100 →
      mk? mo act eps m (PyVal.float q) = .error PyError.typeError) ∧
    (∀ n : Int, 0 ≤ eps → eps ≤ 100 → n ≠ 0 → n ≠ 1 →
      mk? mo act eps m (PyVal.int n) = .error PyError.valueError) := by
  refine ⟨?_, ?_, ?_⟩
  · intro pv hbad
    unfold mk?
    rw [if_pos hbad]
  · intro q h0 h1
    unfold mk?
    rw [if_neg (by push_neg; exact ⟨h0, h1⟩)]
  · intro n h0 h1 hn0 hn1
    unfold mk?
    rw [if_neg (by push_neg; exact ⟨h0, h1⟩)]
    show (if n = 0 ∨ n = 1 then _ else Except.error PyError.valueError) =
      Except.error PyError.valueError
    rw [if_neg (not_or.mpr ⟨hn0, hn1⟩)]

/-- Counterexample to C7 as stated: a non-integer `threshold_mode` raises
`TypeError` while an out-of-range integer raises `ValueError` — two
distinct exception classes, not the single class the claim asserts. -/
theorem constructor_validation_not_single_class :
    mk? [[(1 : ℚ)]] [[(1 : ℚ)]] 5 idMeasure (PyVal.float (1 / 2)) =
      .error PyError.typeError ∧
    mk? [[(1 : ℚ)]] [[(1 : ℚ)]] 5 idMeasure (PyVal.int 2) =
      .error PyError.valueError ∧
    PyError.typeError ≠ PyError.valueError :=
  ⟨by with_unfolding_all rfl, by with_unfolding_all rfl, by decide⟩

/-- Witness for the amended C7 at concrete inputs: `epsilon = 101` gives
`ValueError`; with a valid epsilon, `threshold_mode = 0.5` gives
`TypeError` and `threshold_mode = 2` gives `ValueError`. -/
theorem constructor_validation_witness :
    mk? [[(1 : ℚ)]] [[(1 : ℚ)]] 101 idMeasure (PyVal.int 0) =
      .error PyError.valueError ∧
    mk? [[(1 : ℚ)]] [[(1 : ℚ)]] 5 idMeasure (PyVal.float (1 / 2)) =
      .error PyError.typeError ∧
    mk? [[(1 : ℚ)]] [[(1 : ℚ)]] 5 idMeasure (PyVal.int 2) =
      .error PyError.valueError :=
  ⟨(constructor_validation [[(1 : ℚ)]] [[(1 : ℚ)]] 101 idMeasure).1
      (PyVal.int 0) (by norm_num),
   (constructor_validation [[(1 : ℚ)]] [[(1 : ℚ)]] 5 idMeasure).2.1
      (1 / 2) (by norm_num) (by norm_num),
   (constructor_validation [[(1 : ℚ)]] [[(1 : ℚ)]] 5 idMeasure).2.2
      2 (by norm_num) (by norm_num) (by decide) (by decide)⟩

/-! ### Claim C9 -/

/-- C9: the predictor is stateless after construction: calling `predict`
twice with the same batch on the same instance yields the identical result,
and none of `predict`, `confidence`, `threshold_measure`, `label_histogram`
changes the stored threshold map (their bodies never assign an attribute of
`self`). -/
theorem predictor_state_immutable (cp : ConformalPrediction)
    (mo mo2 act : List (List ℚ)) (preds : List (List Nat)) :
    (cp.predictS mo).1 = ((cp.predictS mo).2.predictS mo).1 ∧
    (cp.predictS mo).2 = cp ∧
    (cp.predictS mo).2.thresholds = cp.thresholds ∧
    (cp.confidenceS mo2).2.thresholds = cp.thresholds ∧
    (cp.threshold_measureS mo2 act).2.thresholds = cp.thresholds ∧
    (cp.label_histogramS preds).2.thresholds = cp.thresholds :=
  ⟨rfl, rfl, rfl, rfl, rfl, rfl⟩
